import Mathlib

/-!
Verification development for the hvppy-chrome-capture content script
(`content.js`).  The script's numeric values (scroll offsets, viewport
sizes, device pixel ratio) are modelled as rationals, image pixel sizes
as naturals, canvas geometry as integers.  Each definition below embeds
one function of the source file.
-/

/-! ## String constants used by the source -/

def hvppyPrefixStr : String := "hvppy-"

def visHiddenStr : String := "hidden"

def posFixedStr : String := "fixed"

def posStickyStr : String := "sticky"

def oyAutoStr : String := "auto"

def oyScrollStr : String := "scroll"

def oyOverlayStr : String := "overlay"

def whiteStr : String := "#ffffff"

def emptyStr : String := ""

def importantStr : String := "important"

/-! ## CaptureSequencer: scroll positions (content.js, performCapture)

The source builds the list of requested scroll offsets with
`let y = 0; while (y < targetY) { scrollPositions.push(y); y += scrollStep; }`
and pushes a single `0` if the list came out empty.  The loop guard in the
embedding also carries `0 < step`: for `step ≤ 0` and `targetY > 0` the
source loop never terminates, so the embedding is only meaningful (and only
used) for positive steps. -/

def scrollPositionsLoop (targetY step y : ℚ) : List ℚ :=
  if h : 0 < step ∧ y < targetY then
    y :: scrollPositionsLoop targetY step (y + step)
  else
    []
termination_by (⌈(targetY - y) / step⌉).toNat
decreasing_by
  obtain ⟨hS, hy⟩ := h
  have hrw : (targetY - (y + step)) / step = (targetY - y) / step - 1 := by
    field_simp
    ring
  have hpos : (0 : ℤ) < ⌈(targetY - y) / step⌉ :=
    Int.ceil_pos.mpr (div_pos (by linarith) hS)
  rw [hrw, Int.ceil_sub_one]
  omega

def scrollPositions (targetY step : ℚ) : List ℚ :=
  let ps := scrollPositionsLoop targetY step 0
  if ps.length = 0 then [0] else ps

/-! ## ImageStitcher (content.js, stitchCaptures / stitchWindowScroll /
stitchContainerScroll)

A captured frame is a loaded image (pixel width/height) together with the
scroll offset read back when it was taken.  A canvas is recorded as its
allocated geometry, its background fill, and the ordered list of
`drawImage` calls issued on it (each call in the source has
`sx = sy = dx = 0`, `sWidth = dWidth = img.width`, `sHeight = dHeight`,
so one call is four integers). -/

structure Frame where
  width : ℕ
  height : ℕ
  scrollY : ℚ
  deriving DecidableEq

structure DrawOp where
  srcW : ℤ
  srcH : ℤ
  destY : ℤ
  destH : ℤ
  deriving DecidableEq

structure Canvas where
  width : ℤ
  height : ℤ
  background : String
  ops : List DrawOp
  deriving DecidableEq

/-- Window-scroll stitching (content.js lines 293-321): canvas of size
`ceil(viewportWidth*dpr) × ceil(targetY*dpr)`, white fill, then each capture
drawn at `drawY = round(scrollY*dpr)` with height
`min(img.height, canvasHeight - drawY)`, skipped when that height is not
positive. -/
def stitchWindowScroll (captures : List Frame) (targetY viewportWidth dpr : ℚ) :
    Canvas :=
  let canvasHeight : ℤ := ⌈targetY * dpr⌉
  let canvasWidth : ℤ := ⌈viewportWidth * dpr⌉
  { width := canvasWidth
    height := canvasHeight
    background := whiteStr
    ops := captures.filterMap (fun c =>
      let drawY : ℤ := round (c.scrollY * dpr)
      let availableHeight : ℤ := canvasHeight - drawY
      let drawHeight : ℤ := min (c.height : ℤ) availableHeight
      if 0 < drawHeight then
        some ⟨(c.width : ℤ), drawHeight, drawY, drawHeight⟩
      else
        none) }

/-- Container-scroll stitching (content.js lines 325-366): returns the empty
result (`''`, modelled as `none`) on zero frames; otherwise stacks every
frame but the last at `destY = i * imgHeight` full height, and crops the
last frame to `lastCropHeight`. -/
def containerOps (imgHeight lastCropHeight destY : ℤ) : List Frame → List DrawOp
  | [] => []
  | [f] => [⟨(f.width : ℤ), lastCropHeight, destY, lastCropHeight⟩]
  | f :: g :: rest =>
      ⟨(f.width : ℤ), (f.height : ℤ), destY, (f.height : ℤ)⟩ ::
        containerOps imgHeight lastCropHeight (destY + imgHeight) (g :: rest)

def stitchContainerScroll (captures : List Frame)
    (targetY dpr containerTop : ℚ) : Option Canvas :=
  match captures with
  | [] => none
  | c0 :: rest =>
    let imgHeight : ℤ := (c0.height : ℤ)
    let lastCapture := (c0 :: rest).getLast (List.cons_ne_nil c0 rest)
    let clickInContainer : ℚ := targetY - lastCapture.scrollY
    let clickInViewport : ℚ := containerTop + clickInContainer
    let lastCropHeight : ℤ := min ⌈clickInViewport * dpr⌉ imgHeight
    let canvasHeight : ℤ := ((c0 :: rest).length - 1 : ℕ) * imgHeight + lastCropHeight
    some
      { width := (c0.width : ℤ)
        height := canvasHeight
        background := whiteStr
        ops := containerOps imgHeight lastCropHeight 0 (c0 :: rest) }

/-- Scroll-context kind (window vs container), used by the stitch dispatch
(content.js lines 285-290). -/
inductive CtxKind where
  | window
  | container
  deriving DecidableEq

def stitchCaptures (kind : CtxKind) (captures : List Frame)
    (targetY viewportWidth dpr containerTop : ℚ) : Option Canvas :=
  match kind with
  | .container => stitchContainerScroll captures targetY dpr containerTop
  | .window => some (stitchWindowScroll captures targetY viewportWidth dpr)

/-- The draw operation the spec describes for document-mode stitching: the
frame is placed at `round(offset*density)` and clipped to the remaining
surface height; a frame whose offset maps at or past the surface height
contributes nothing.  (Spec-side companion for the refinement statement of
the window-mode stitcher.) -/
def specWindowDraw (canvasHeight : ℤ) (dpr : ℚ) (c : Frame) : Option DrawOp :=
  let drawY : ℤ := round (c.scrollY * dpr)
  if drawY < canvasHeight then
    some ⟨(c.width : ℤ), min (c.height : ℤ) (canvasHeight - drawY), drawY,
      min (c.height : ℤ) (canvasHeight - drawY)⟩
  else
    none

/-! ## CaptureController event trace (content.js, performCapture / onClick)

The external snapshot service answers each `captureTab` request either with
image data or with an error field; the loop in `performCapture` throws on an
error response, which aborts the remaining steps.  `onClick` wraps
`performCapture` in try/catch and then always restores the original scroll
offset and deactivates.  The model records the externally visible events in
order. -/

inductive SnapResponse where
  | ok (dataUrl : String)
  | err (msg : String)
  deriving DecidableEq

inductive CaptureEvent where
  | scrollTo (y : ℚ)
  | snapshot (i : ℕ)
  | stitchEv
  | persistEv
  | deactivateEv
  deriving DecidableEq

/-- The capture loop (content.js lines 221-257): one scroll + one snapshot
request per step; an error response throws, executing no further steps.
`maxScroll` models platform clamping of the requested offset (the source
reads the offset back after scrolling).  Returns the events of the executed
steps and either the collected frames or the thrown error. -/
def captureSteps (svc : ℕ → SnapResponse) (viewportW viewportH : ℕ)
    (maxScroll : ℚ) : ℕ → List ℚ → List CaptureEvent × Except String (List Frame)
  | _, [] => ([], Except.ok [])
  | i, p :: rest =>
    let actualScrollY := min p maxScroll
    match svc i with
    | .err m => ([.scrollTo p, .snapshot i], Except.error m)
    | .ok _ =>
      let (evs, r) := captureSteps svc viewportW viewportH maxScroll (i + 1) rest
      (.scrollTo p :: .snapshot i :: evs,
        r.map (fun fs => ⟨viewportW, viewportH, actualScrollY⟩ :: fs))

/-- Events of `performCapture` (content.js lines 199-275): an invalid target
returns before any step; otherwise the step events, then (only if every
snapshot succeeded) one stitch and one persistence request. -/
def performCaptureEvents (svc : ℕ → SnapResponse) (viewportW viewportH : ℕ)
    (maxScroll targetY step : ℚ) : List CaptureEvent :=
  if targetY ≤ 0 then []
  else
    match captureSteps svc viewportW viewportH maxScroll 0
        (scrollPositions targetY step) with
    | (evs, Except.error _) => evs
    | (evs, Except.ok _) => evs ++ [.stitchEv, .persistEv]

/-- Events of `onClick` (content.js lines 158-195): run `performCapture`
under try/catch, then restore the pre-session scroll offset and deactivate,
on every path. -/
def onClickEvents (svc : ℕ → SnapResponse) (viewportW viewportH : ℕ)
    (maxScroll targetY step originalScroll : ℚ) : List CaptureEvent :=
  performCaptureEvents svc viewportW viewportH maxScroll targetY step ++
    [.scrollTo originalScroll, .deactivateEv]

/-! ## Session state (content.js IIFE toggle, lines 5-14, and deactivate,
lines 478-494)

`window.__hvppyCaptureActive` together with the injected UI elements and
the closure flag `isCapturing`.  Element handles are `Option Unit`; calling
`.remove()` on a null handle would fault, so the removal call is modelled
as a fallible operation and `deactivate`'s `if (el)` guards are kept. -/

structure SessState where
  active : Bool
  isCapturing : Bool
  barEl : Option Unit
  guideLineEl : Option Unit
  progressEl : Option Unit
  listenersAttached : Bool
  deriving DecidableEq

def nullCallMsg : String := "TypeError: cannot call remove on null"

/-- `el.remove()`: faults when the handle is null. -/
def elRemove (h : Option Unit) : Except String (Option Unit) :=
  match h with
  | none => Except.error nullCallMsg
  | some _ => Except.ok none

/-- The fully torn-down state produced by `deactivate`. -/
def clearedState : SessState :=
  { active := false
    isCapturing := false
    barEl := none
    guideLineEl := none
    progressEl := none
    listenersAttached := false }

/-- `deactivate` (content.js lines 478-491): detach listeners, remove each
injected element under an `if (el)` null guard, null the references, clear
`isCapturing` and the global active flag. -/
def deactivateRun (s : SessState) : Except String SessState := do
  let _ ← if s.barEl.isSome then elRemove s.barEl else pure none
  let _ ← if s.guideLineEl.isSome then elRemove s.guideLineEl else pure none
  let _ ← if s.progressEl.isSome then elRemove s.progressEl else pure none
  pure clearedState

/-- A freshly activated session (content.js `activate`, lines 114-148):
UI injected, listeners attached, awaiting a click. -/
def freshActiveState : SessState :=
  { active := true
    isCapturing := false
    barEl := some ()
    guideLineEl := some ()
    progressEl := some ()
    listenersAttached := true }

/-- The IIFE toggle guard (content.js lines 5-14 and 497): if the global
active flag is set, call the exposed deactivate and return; otherwise set
the flag and activate. -/
def triggerRun (s : SessState) : Except String SessState :=
  if s.active then deactivateRun s
  else Except.ok freshActiveState

/-! ## OcclusionSuppressor (content.js, hideOverlayElements /
restoreHiddenElements)

The DOM is modelled as a list of elements in document order
(`document.querySelectorAll('*')` order).  An element carries its id
attribute, its computed `position`, its inline `style.visibility`
declaration — the value (empty string when unset, as the CSSOM getter
reports) together with its priority flag (`"important"` or the empty
string) — its parent (for the sibling walk of pass 2) and its
bounding-client rect.  The three style operations the source performs are
distinct CSSOM writes: `setProperty('visibility', 'hidden', 'important')`
sets value and priority, plain assignment `style.visibility = v` sets the
value with the priority flag cleared, and `removeProperty('visibility')`
clears both. -/

structure Elem where
  eid : ℕ
  idAttr : String
  position : String
  visibility : String
  visPriority : String
  parentId : Option ℕ
  rectTop : ℚ
  rectBottom : ℚ
  rectWidth : ℚ
  rectHeight : ℚ
  deriving DecidableEq

structure HRec where
  eid : ℕ
  prev : String
  deriving DecidableEq

/-- Write element `i`'s inline visibility declaration: value `v` with
priority `p`.  `setProperty(v, 'important')` is `v`/`importantStr`, plain
assignment is `v`/`emptyStr`, `removeProperty` is `emptyStr`/`emptyStr`. -/
def setVisDecl (dom : List Elem) (i : ℕ) (v p : String) : List Elem :=
  dom.map (fun e =>
    if e.eid == i then { e with visibility := v, visPriority := p } else e)

/-- Reset only the priority flag of element `i` (used to state what the
restore pass actually reproduces). -/
def setPrio (dom : List Elem) (i : ℕ) (p : String) : List Elem :=
  dom.map (fun e => if e.eid == i then { e with visPriority := p } else e)

def findE (dom : List Elem) (i : ℕ) : Option Elem :=
  dom.find? (fun e => e.eid == i)

def visOf (dom : List Elem) (i : ℕ) : String :=
  match findE dom i with
  | some e => e.visibility
  | none => emptyStr

/-- Pass 1 (content.js lines 381-390): walk all elements in document order;
skip the extension's own elements; hide every fixed/sticky element with
`setProperty('visibility', 'hidden', 'important')`, recording its prior
inline visibility value (`el.style.visibility` — the value only, not the
priority). -/
def hideFixed (order : List ℕ) (dom : List Elem) (recs : List HRec) :
    List Elem × List HRec :=
  match order with
  | [] => (dom, recs)
  | i :: rest =>
    match findE dom i with
    | none => hideFixed rest dom recs
    | some el =>
      if el.idAttr.startsWith hvppyPrefixStr then hideFixed rest dom recs
      else if el.position == posFixedStr || el.position == posStickyStr then
        hideFixed rest (setVisDecl dom i visHiddenStr importantStr)
          (recs ++ [⟨i, el.visibility⟩])
      else hideFixed rest dom recs

/-- The vertical-overlap test of pass 2 (content.js lines 410-414). -/
def overlapsContainer (sib : Elem) (cTop cBottom : ℚ) : Bool :=
  decide (cTop < sib.rectBottom) && decide (sib.rectTop < cBottom) &&
    decide (0 < sib.rectWidth) && decide (0 < sib.rectHeight)

/-- One ancestor level of pass 2 (content.js lines 404-418): each direct
child of the parent other than the walked path, not the extension's own,
not already hidden, is hidden when it overlaps the container's box. -/
def hideSiblings (cTop cBottom : ℚ) (currentId : ℕ) (sibs : List ℕ)
    (dom : List Elem) (recs : List HRec) : List Elem × List HRec :=
  match sibs with
  | [] => (dom, recs)
  | s :: rest =>
    if s == currentId then hideSiblings cTop cBottom currentId rest dom recs
    else
      match findE dom s with
      | none => hideSiblings cTop cBottom currentId rest dom recs
      | some sib =>
        if sib.idAttr.startsWith hvppyPrefixStr then
          hideSiblings cTop cBottom currentId rest dom recs
        else if recs.any (fun h => h.eid == s) then
          hideSiblings cTop cBottom currentId rest dom recs
        else if overlapsContainer sib cTop cBottom then
          hideSiblings cTop cBottom currentId rest
            (setVisDecl dom s visHiddenStr importantStr)
            (recs ++ [⟨s, sib.visibility⟩])
        else hideSiblings cTop cBottom currentId rest dom recs

def childIds (dom : List Elem) (p : ℕ) : List ℕ :=
  (dom.filter (fun e => e.parentId == some p)).map (fun e => e.eid)

/-- The upward walk of pass 2 (content.js lines 399-421): from the container
up to (but excluding) the document root, processing each ancestor's direct
children.  `fuel` bounds the walk; a DOM tree's parent chain has length at
most the number of elements, so with `fuel = dom.length + 1` the bound is
never reached on tree-shaped input. -/
def walkUp (cTop cBottom : ℚ) (rootId : ℕ) :
    ℕ → ℕ → List Elem × List HRec → List Elem × List HRec
  | 0, _, st => st
  | fuel + 1, currentId, (dom, recs) =>
    if currentId == rootId then (dom, recs)
    else
      match (findE dom currentId).bind (fun e => e.parentId) with
      | none => (dom, recs)
      | some pid =>
        let st := hideSiblings cTop cBottom currentId (childIds dom pid) dom recs
        walkUp cTop cBottom rootId fuel pid st

/-- `hideOverlayElements` (content.js lines 376-425): pass 1 over every
element, then, when a scroll container exists, pass 2 from its bounding box
upward.  `rootId` is `document.documentElement`. -/
def hideOverlayElements (dom : List Elem) (containerId : Option ℕ)
    (rootId : ℕ) : List Elem × List HRec :=
  let st := hideFixed (dom.map (fun e => e.eid)) dom []
  match containerId with
  | none => st
  | some cid =>
    match findE st.1 cid with
    | none => st
    | some c =>
      walkUp c.rectTop c.rectBottom rootId (dom.length + 1) cid st

/-- `restoreHiddenElements` (content.js lines 427-435): when a prior value
was recorded, write it back by plain assignment (`el.style.visibility =
prev`, which sets the value with the priority flag cleared); otherwise
`removeProperty('visibility')` clears value and priority. -/
def restoreHiddenElements (dom : List Elem) (hidden : List HRec) : List Elem :=
  hidden.foldl
    (fun d r => if r.prev == emptyStr then setVisDecl d r.eid emptyStr emptyStr
      else setVisDecl d r.eid r.prev emptyStr) dom

/-- The cumulative effect of a record list on the DOM: every recorded
element set to the forced-hidden declaration `hidden !important`, in record
order. -/
def applyHides (dom : List Elem) (recs : List HRec) : List Elem :=
  recs.foldl (fun a r => setVisDecl a r.eid visHiddenStr importantStr) dom

/-- What the suppress/restore cycle actually reproduces: the original DOM
with each recorded element's inline priority flag reset (the restore pass
writes values back by plain assignment, dropping any prior `!important`). -/
def clearPriorities (dom : List Elem) (recs : List HRec) : List Elem :=
  recs.foldl (fun d r => setPrio d r.eid emptyStr) dom

/-- Invariant of the suppression passes: the records carry pairwise
distinct elements, each record holds the element's original inline
visibility value, and the current DOM is the original with exactly the
recorded elements forced hidden. -/
def SuppressInv (dom0 : List Elem) (st : List Elem × List HRec) : Prop :=
  (st.2.map HRec.eid).Nodup ∧
  (∀ r ∈ st.2, r.prev = visOf dom0 r.eid) ∧
  st.1 = applyHides dom0 st.2


/-! ## ScrollContextResolver (content.js, isDocumentScrollable /
findScrollContainer)

A DOM node carries the attributes the resolver inspects plus its element
children.  The BFS of `findScrollContainer` visits at most 2000 nodes and
keeps the queue under 4000 entries; the visit budget is the structural
fuel of the embedding, exactly as in the source's `count < 2000` guard. -/

inductive Node where
  | mk (idAttr : String) (nodeType : ℕ) (overflowY : String)
      (scrollHeight clientHeight clientWidth : ℚ) (children : List Node)

def Node.idAttr : Node → String
  | .mk a _ _ _ _ _ _ => a

def Node.nodeType : Node → ℕ
  | .mk _ t _ _ _ _ _ => t

def Node.overflowY : Node → String
  | .mk _ _ oy _ _ _ _ => oy

def Node.scrollHeight : Node → ℚ
  | .mk _ _ _ sh _ _ _ => sh

def Node.clientHeight : Node → ℚ
  | .mk _ _ _ _ ch _ _ => ch

def Node.clientWidth : Node → ℚ
  | .mk _ _ _ _ _ cw _ => cw

def Node.children : Node → List Node
  | .mk _ _ _ _ _ _ cs => cs

structure DocModel where
  rootOverflowY : String
  bodyOverflowY : String
  rootScrollHeight : ℚ
  innerHeight : ℚ
  bodyChildren : List Node

/-- `isDocumentScrollable` (content.js lines 26-39). -/
def isDocumentScrollable (d : DocModel) : Bool :=
  if d.rootOverflowY == visHiddenStr && d.bodyOverflowY == visHiddenStr then
    false
  else
    decide (d.innerHeight + 50 < d.rootScrollHeight)

def nodeArea (el : Node) : ℚ :=
  el.clientHeight * el.clientWidth

/-- The candidate test of the BFS body (content.js lines 64-66). -/
def qualifiesNode (el : Node) : Bool :=
  (el.overflowY == oyAutoStr || el.overflowY == oyScrollStr ||
      el.overflowY == oyOverlayStr) &&
    decide (el.clientHeight + 10 < el.scrollHeight) &&
    decide ((100 : ℚ) < el.clientHeight)

/-- Child enqueueing (content.js lines 75-77): append children while the
queue stays under 4000 entries. -/
def enqueueChildren (rest : List Node) (el : Node) : List Node :=
  rest ++ el.children.take (4000 - rest.length)

/-- The BFS of `findScrollContainer` (content.js lines 47-80), with the
visit budget as structural fuel (`count < 2000` in the source equals
`fuel > 0` here). -/
def findLoop : ℕ → List Node → Option Node → ℚ → Option Node
  | 0, _, best, _ => best
  | _, [], best, _ => best
  | fuel + 1, el :: rest, best, maxArea =>
    if el.nodeType != 1 then findLoop fuel rest best maxArea
    else if el.idAttr.startsWith hvppyPrefixStr then findLoop fuel rest best maxArea
    else if qualifiesNode el && decide (maxArea < nodeArea el) then
      findLoop fuel (enqueueChildren rest el) (some el) (nodeArea el)
    else
      findLoop fuel (enqueueChildren rest el) best maxArea

def findScrollContainer (d : DocModel) : Option Node :=
  if isDocumentScrollable d then none
  else findLoop 2000 d.bodyChildren none 0

/-- The BFS traversal order: the elements that reach the candidate test, in
the order they are dequeued (same queue mechanics as `findLoop`). -/
def orderLoop : ℕ → List Node → List Node
  | 0, _ => []
  | _, [] => []
  | fuel + 1, el :: rest =>
    if el.nodeType != 1 then orderLoop fuel rest
    else if el.idAttr.startsWith hvppyPrefixStr then orderLoop fuel rest
    else el :: orderLoop fuel (enqueueChildren rest el)

/-- Selection replayed over a traversal order (used to relate the BFS to
the claim's selection rule). -/
def selectGo : List Node → Option Node → ℚ → Option Node
  | [], best, _ => best
  | el :: rest, best, maxArea =>
    if qualifiesNode el && decide (maxArea < nodeArea el) then
      selectGo rest (some el) (nodeArea el)
    else
      selectGo rest best maxArea

/-- Modelled from the spec's claim: among qualifying candidates, the one
with the largest visible area, ties keeping the first found in traversal
order. -/
def claimSelect (l : List Node) : Option Node :=
  (l.filter qualifiesNode).foldl
    (fun b el =>
      match b with
      | none => some el
      | some b0 => if decide (nodeArea b0 < nodeArea el) then some el else some b0)
    none

def claimFindScrollContainer (d : DocModel) : Option Node :=
  if isDocumentScrollable d then none
  else claimSelect (orderLoop 2000 d.bodyChildren)

/-- The amended selection rule: as the claim, but a candidate is only ever
selected when its visible area is strictly positive (the source's
`area > maxArea` test starts from `maxArea = 0`). -/
def amendedSelect (l : List Node) : Option Node :=
  (l.filter qualifiesNode).foldl
    (fun b el =>
      match b with
      | none => if decide (0 < nodeArea el) then some el else none
      | some b0 => if decide (nodeArea b0 < nodeArea el) then some el else some b0)
    none

/-- Event classifier: is this event a snapshot request? -/
def isSnapshotEv : CaptureEvent → Bool
  | .snapshot _ => true
  | _ => false

/-- A session in the `capturing` phase: global flag set, `isCapturing`
set, UI elements present (the bar and guide line are display-hidden during
capture but still attached). -/
def capturingState : SessState :=
  { active := true
    isCapturing := true
    barEl := some ()
    guideLineEl := some ()
    progressEl := some ()
    listenersAttached := true }

/-- The last-frame crop height the spec describes for container-mode
stitching: the click row within the last frame,
`context.viewportOffset + (targetOffset - lastFrame.offset)` scaled by
pixel density, clamped to the common frame pixel height.  (Spec-side
companion for the refinement statement of the container-mode stitcher.) -/
def specLastCrop (captures : List Frame) (targetY dpr containerTop : ℚ)
    (H : ℕ) (hne : captures ≠ []) : ℤ :=
  min ⌈(containerTop + (targetY - (captures.getLast hne).scrollY)) * dpr⌉ (H : ℤ)

/-- The draw list the spec describes for container-mode stitching: the
first `n-1` frames full height, stacked consecutively at `i*H`, then only
the leading `L` rows of the last frame. -/
def specContainerOps (captures : List Frame) (lastF : Frame) (H : ℕ) (L : ℤ) :
    List DrawOp :=
  (captures.dropLast.enum.map (fun p =>
    (⟨(p.2.width : ℤ), (H : ℤ), (p.1 : ℤ) * (H : ℤ), (H : ℤ)⟩ : DrawOp))) ++
    [⟨(lastF.width : ℤ), L, ((captures.length : ℤ) - 1) * (H : ℤ), L⟩]

/-- A snapshot service that succeeds on the first request and rejects on
the second (used to exercise the failure-abort path concretely). -/
def failSecondSvc : ℕ → SnapResponse :=
  fun i => if i = 0 then SnapResponse.ok emptyStr else SnapResponse.err emptyStr

/-- A small concrete DOM: a root (eid 1), a fixed banner (eid 2), a scroll
container (eid 3) and a statically positioned sibling overlapping the
container (eid 4); no element carries an `!important` inline priority. -/
def c6Dom : List Elem :=
  [⟨1, "", "static", "", "", none, 0, 1000, 500, 1000⟩,
   ⟨2, "", "fixed", "visible", "", some 1, 0, 50, 100, 50⟩,
   ⟨3, "", "static", "", "", some 1, 0, 400, 200, 400⟩,
   ⟨4, "", "static", "", "", some 1, 10, 60, 50, 50⟩]

/-- A one-element DOM whose fixed element has the inline declaration
`visibility: visible !important` before suppression. -/
def c6CexDom : List Elem :=
  [⟨1, "", "fixed", "visible", "important", none, 0, 50, 100, 50⟩]

/-- A document whose root and body both block overflow, with a single body
child that qualifies as a scroll container but has zero client width (zero
visible area). -/
def c8CexNode : Node :=
  Node.mk emptyStr 1 oyAutoStr 500 200 0 []

def c8CexDoc : DocModel :=
  { rootOverflowY := visHiddenStr
    bodyOverflowY := visHiddenStr
    rootScrollHeight := 2000
    innerHeight := 800
    bodyChildren := [c8CexNode] }

/-! ## Theorems -/

theorem scrollPositionsLoop_eq (targetY step : ℚ) (hS : 0 < step) :
    ∀ n : ℕ, ∀ y : ℚ, (⌈(targetY - y) / step⌉).toNat = n →
      scrollPositionsLoop targetY step y =
        (List.range n).map (fun i : ℕ => y + (i : ℚ) * step) := by
  intro n
  induction n with
  | zero =>
    intro y hn
    have hle : ⌈(targetY - y) / step⌉ ≤ 0 := by omega
    have hdiv : (targetY - y) / step ≤ 0 := by
      exact_mod_cast Int.ceil_le.mp (by exact_mod_cast hle)
    have hty : ¬ y < targetY := by
      intro hy
      have : 0 < (targetY - y) / step := div_pos (by linarith) hS
      linarith
    rw [scrollPositionsLoop]
    simp [hty]
  | succ n ih =>
    intro y hn
    have hceil : ⌈(targetY - y) / step⌉ = (n : ℤ) + 1 := by omega
    have hdivpos : 0 < (targetY - y) / step := by
      by_contra hle
      push_neg at hle
      have : ⌈(targetY - y) / step⌉ ≤ 0 := by
        exact_mod_cast Int.ceil_le.mpr (by simpa using hle)
      omega
    have hy : y < targetY := by
      rcases lt_trichotomy y targetY with h | h | h
      · exact h
      · exfalso; rw [h] at hdivpos; simp at hdivpos
      · exfalso
        have : (targetY - y) / step ≤ 0 :=
          div_nonpos_of_nonpos_of_nonneg (by linarith) (le_of_lt hS)
        linarith
    have hnext : (⌈(targetY - (y + step)) / step⌉).toNat = n := by
      have hrw : (targetY - (y + step)) / step = (targetY - y) / step - 1 := by
        field_simp
        ring
      rw [hrw, Int.ceil_sub_one, hceil]
      omega
    rw [scrollPositionsLoop]
    rw [dif_pos ⟨hS, hy⟩, ih (y + step) hnext]
    rw [List.range_succ_eq_map]
    simp only [List.map_cons, List.map_map]
    congr 1
    · norm_num
    · apply List.map_congr_left
      intro i _
      simp [Function.comp]
      ring

theorem scrollPositions_closed_form (targetY step : ℚ)
    (hT : 0 < targetY) (hS : 0 < step) :
    scrollPositions targetY step =
      (List.range (⌈targetY / step⌉).toNat).map (fun i : ℕ => (i : ℚ) * step) := by
  have h0 : (⌈(targetY - 0) / step⌉).toNat = (⌈targetY / step⌉).toNat := by
    norm_num
  have hloop := scrollPositionsLoop_eq targetY step hS _ 0 h0
  have hpos : (0 : ℤ) < ⌈targetY / step⌉ :=
    Int.ceil_pos.mpr (div_pos hT hS)
  have hlen : (⌈targetY / step⌉).toNat ≠ 0 := by omega
  unfold scrollPositions
  rw [hloop]
  simp [hlen]

theorem deactivateRun_ok (s : SessState) :
    deactivateRun s = Except.ok clearedState := by
  unfold deactivateRun
  cases hb : s.barEl <;> cases hg : s.guideLineEl <;> cases hp : s.progressEl <;>
    rfl

theorem list_filterMap_congr {α β : Type} (f g : α → Option β) :
    ∀ l : List α, (∀ x ∈ l, f x = g x) → l.filterMap f = l.filterMap g := by
  intro l
  induction l with
  | nil => intro _; rfl
  | cons x xs ih =>
    intro h
    rw [List.filterMap_cons, List.filterMap_cons, h x (by simp),
      ih (fun y hy => h y (by simp [hy]))]

/-- Claim C1: for every target offset `T > 0` and step size `S > 0`, the
sequencer's requested scroll positions are exactly `0, S, 2S, ...` (the
`i`-th step requests offset `i * S`), the number of steps is `ceil(T / S)`,
and when `0 < T ≤ S` exactly one step at offset `0` is emitted. -/
theorem c1_sequencer_steps (targetY step : ℚ) (hT : 0 < targetY)
    (hS : 0 < step) :
    scrollPositions targetY step =
      (List.range (⌈targetY / step⌉).toNat).map (fun i : ℕ => (i : ℚ) * step) ∧
    ((scrollPositions targetY step).length : ℤ) = ⌈targetY / step⌉ ∧
    (targetY ≤ step → scrollPositions targetY step = [0]) := by
  have hcf := scrollPositions_closed_form targetY step hT hS
  have hpos : (0 : ℤ) < ⌈targetY / step⌉ := Int.ceil_pos.mpr (div_pos hT hS)
  refine ⟨hcf, ?_, ?_⟩
  · rw [hcf]
    simp only [List.length_map, List.length_range]
    omega
  · intro hTS
    have hle : ⌈targetY / step⌉ ≤ 1 := by
      have hdiv : targetY / step ≤ 1 := (div_le_one hS).mpr hTS
      exact_mod_cast Int.ceil_le.mpr (by exact_mod_cast hdiv)
    have h1 : (⌈targetY / step⌉).toNat = 1 := by omega
    rw [hcf, h1]
    simp [List.range_succ]

/-- Witness for C1 at scenario A of the spec: viewport height 800, click at
content Y 1850 gives the three steps 0, 800, 1600. -/
theorem c1_sequencer_steps_witness :
    (0 : ℚ) < 1850 ∧ (0 : ℚ) < 800 ∧
    scrollPositions 1850 800 = [0, 800, 1600] := by
  refine ⟨by norm_num, by norm_num, ?_⟩
  have h := (c1_sequencer_steps 1850 800 (by norm_num) (by norm_num)).1
  have hc0 : (⌈(1850 : ℚ) / 800⌉ : ℤ) = 3 := by
    rw [Int.ceil_eq_iff]
    norm_num
  have hc : (⌈(1850 : ℚ) / 800⌉).toNat = 3 := by rw [hc0]; rfl
  rw [h, hc]
  norm_num [List.range_succ]

/-- Claim C5: a click whose computed target offset is `≤ 0` makes zero
snapshot calls, never stitches, never persists, and the session ends with
the scroll offset restored to its pre-session value. -/
theorem c5_invalid_target (svc : ℕ → SnapResponse) (vW vH : ℕ)
    (maxScroll targetY step originalScroll : ℚ) (hT : targetY ≤ 0) :
    (∀ i : ℕ,
      CaptureEvent.snapshot i ∉
        onClickEvents svc vW vH maxScroll targetY step originalScroll) ∧
    CaptureEvent.stitchEv ∉
      onClickEvents svc vW vH maxScroll targetY step originalScroll ∧
    CaptureEvent.persistEv ∉
      onClickEvents svc vW vH maxScroll targetY step originalScroll ∧
    onClickEvents svc vW vH maxScroll targetY step originalScroll =
      [CaptureEvent.scrollTo originalScroll, CaptureEvent.deactivateEv] := by
  have he : onClickEvents svc vW vH maxScroll targetY step originalScroll =
      [CaptureEvent.scrollTo originalScroll, CaptureEvent.deactivateEv] := by
    unfold onClickEvents performCaptureEvents
    rw [if_pos hT]
    rfl
  rw [he]
  refine ⟨?_, ?_, ?_, rfl⟩ <;> simp

/-- Witness for C5 at a concrete click at `Y = 0`. -/
theorem c5_invalid_target_witness :
    (0 : ℚ) ≤ 0 ∧
    onClickEvents (fun _ => SnapResponse.ok emptyStr) 100 800 10000 0 800 7 =
      [CaptureEvent.scrollTo 7, CaptureEvent.deactivateEv] :=
  ⟨le_refl 0,
    (c5_invalid_target (fun _ => SnapResponse.ok emptyStr) 100 800 10000 0 800 7
      (le_refl 0)).2.2.2⟩

/-- Claim C10: session teardown is idempotent and never faults: one call
reaches the fully cleared state, and a second call on the cleared state
returns it unchanged, every element removal being guarded by nullability. -/
theorem c10_deactivate_idempotent (s : SessState) :
    deactivateRun s = Except.ok clearedState ∧
    deactivateRun clearedState = Except.ok clearedState :=
  ⟨deactivateRun_ok s, deactivateRun_ok clearedState⟩

/-- Counterexample to claim C7: a trigger arriving while the state is
`capturing` is not ignored — it tears the session down (the global active
flag is cleared and the UI removed) instead of leaving it running. -/
theorem c7_counterexample :
    capturingState.active = true ∧ capturingState.isCapturing = true ∧
    triggerRun capturingState = Except.ok clearedState ∧
    triggerRun capturingState ≠ Except.ok capturingState := by
  have he : triggerRun capturingState = Except.ok clearedState := by
    have h0 : triggerRun capturingState = deactivateRun capturingState := rfl
    rw [h0]
    exact deactivateRun_ok capturingState
  refine ⟨rfl, rfl, he, ?_⟩
  rw [he]
  intro hcontra
  have h2 : clearedState = capturingState := by
    injection hcontra
  have h3 : clearedState.active = capturingState.active := by rw [h2]
  simp [clearedState, capturingState] at h3

/-- Claim C7 as amended: any activation trigger while the global active
flag is set — whether the session is `active-awaiting-click` or already
`capturing` — tears the whole session down (no second session starts); a
trigger while inactive starts a fresh session. -/
theorem c7_trigger_amended (s : SessState) :
    (s.active = true → triggerRun s = Except.ok clearedState) ∧
    (s.active = false → triggerRun s = Except.ok freshActiveState) := by
  constructor
  · intro h
    rw [triggerRun, if_pos h]
    exact deactivateRun_ok s
  · intro h
    rw [triggerRun, if_neg (by rw [h]; exact Bool.false_ne_true)]

/-- Witness for the amended C7 at the two reachable active states. -/
theorem c7_trigger_amended_witness :
    freshActiveState.active = true ∧
    triggerRun freshActiveState = Except.ok clearedState :=
  ⟨rfl, (c7_trigger_amended freshActiveState).1 rfl⟩

/-- Counterexample to claim C9: with zero frames, document-mode stitching
does not return the empty result — it still produces a composed (blank)
canvas of the full target dimensions. -/
theorem c9_counterexample :
    stitchCaptures CtxKind.window [] 10 5 1 0 =
      some { width := 5, height := 10, background := whiteStr, ops := [] } ∧
    stitchCaptures CtxKind.window [] 10 5 1 0 ≠ none := by
  have h5 : (⌈(5 : ℚ) * 1⌉ : ℤ) = 5 := by norm_num
  have h10 : (⌈(10 : ℚ) * 1⌉ : ℤ) = 10 := by norm_num
  have h : stitchCaptures CtxKind.window [] 10 5 1 0 =
      some { width := 5, height := 10, background := whiteStr, ops := [] } := by
    have h1 : stitchCaptures CtxKind.window [] 10 5 1 0 =
        some { width := ⌈(5 : ℚ) * 1⌉, height := ⌈(10 : ℚ) * 1⌉,
               background := whiteStr, ops := [] } := rfl
    rw [h1, h5, h10]
  exact ⟨h, by rw [h]; simp⟩

/-- Claim C9 as amended: with zero frames, container-mode stitching returns
the empty result, while document-mode stitching returns a composed blank
canvas of size `ceil(W*d) × ceil(T*d)` with no frame drawn. -/
theorem c9_zero_frames_amended (targetY viewportWidth dpr containerTop : ℚ) :
    stitchCaptures CtxKind.container [] targetY viewportWidth dpr containerTop =
      none ∧
    stitchCaptures CtxKind.window [] targetY viewportWidth dpr containerTop =
      some { width := ⌈viewportWidth * dpr⌉, height := ⌈targetY * dpr⌉,
             background := whiteStr, ops := [] } :=
  ⟨rfl, rfl⟩

theorem captureSteps_events_kind (svc : ℕ → SnapResponse) (vW vH : ℕ)
    (maxScroll : ℚ) :
    ∀ (ps : List ℚ) (i : ℕ),
      ∀ e ∈ (captureSteps svc vW vH maxScroll i ps).1,
        (∃ y, e = CaptureEvent.scrollTo y) ∨ (∃ j, e = CaptureEvent.snapshot j) := by
  intro ps
  induction ps with
  | nil =>
    intro i e he
    simp [captureSteps] at he
  | cons p rest ih =>
    intro i e he
    unfold captureSteps at he
    cases hsvc : svc i with
    | err m =>
      rw [hsvc] at he
      simp at he
      rcases he with he | he
      · exact Or.inl ⟨p, he⟩
      · exact Or.inr ⟨i, he⟩
    | ok d =>
      rw [hsvc] at he
      rcases hcs : captureSteps svc vW vH maxScroll (i + 1) rest with ⟨evs, r⟩
      rw [hcs] at he
      simp at he
      rcases he with he | he | he
      · exact Or.inl ⟨p, he⟩
      · exact Or.inr ⟨i, he⟩
      · have := ih (i + 1) e (by rw [hcs]; exact he)
        exact this

theorem captureSteps_err (svc : ℕ → SnapResponse) (vW vH : ℕ) (maxScroll : ℚ) :
    ∀ (ps : List ℚ) (i k : ℕ), 1 ≤ k → k ≤ ps.length →
      (∀ j, j < k - 1 → ∃ d, svc (i + j) = SnapResponse.ok d) →
      (∃ m, svc (i + (k - 1)) = SnapResponse.err m) →
      ∃ evs m, captureSteps svc vW vH maxScroll i ps = (evs, Except.error m) ∧
        (evs.filter isSnapshotEv).length = k := by
  intro ps
  induction ps with
  | nil =>
    intro i k hk1 hkn _ _
    simp at hkn
    omega
  | cons p rest ih =>
    intro i k hk1 hkn hok herr
    by_cases hk : k = 1
    · subst hk
      obtain ⟨m, hm⟩ := herr
      have hm0 : svc i = SnapResponse.err m := by simpa using hm
      refine ⟨[CaptureEvent.scrollTo p, CaptureEvent.snapshot i], m, ?_, ?_⟩
      · unfold captureSteps
        rw [hm0]
      · simp [isSnapshotEv]
    · have hk2 : 2 ≤ k := by omega
      obtain ⟨d, hd⟩ := hok 0 (by omega)
      have hd0 : svc i = SnapResponse.ok d := by simpa using hd
      have hih := ih (i + 1) (k - 1) (by omega)
        (by simp at hkn; omega)
        (fun j hj => by
          have := hok (j + 1) (by omega)
          simpa [Nat.add_assoc, Nat.add_comm 1 j] using this)
        (by
          obtain ⟨m, hm⟩ := herr
          refine ⟨m, ?_⟩
          have harith : i + 1 + (k - 1 - 1) = i + (k - 1) := by omega
          rw [harith]
          exact hm)
      obtain ⟨evs, m, hcs, hlen⟩ := hih
      refine ⟨CaptureEvent.scrollTo p :: CaptureEvent.snapshot i :: evs, m, ?_, ?_⟩
      · unfold captureSteps
        rw [hd0, hcs]
        rfl
      · simp [isSnapshotEv, hlen]
        omega

/-- Claim C4: a snapshot failure at step `k` of an `n`-step sequence means
exactly `k` snapshot calls in total, no further steps, no stitch, no
persistence, and the scroll offset restored to its pre-session value before
the session ends. -/
theorem c4_snapshot_failure (svc : ℕ → SnapResponse) (vW vH : ℕ)
    (maxScroll targetY step originalScroll : ℚ) (k : ℕ)
    (hT : 0 < targetY) (hk1 : 1 ≤ k)
    (hkn : k ≤ (scrollPositions targetY step).length)
    (hok : ∀ j, j < k - 1 → ∃ d, svc j = SnapResponse.ok d)
    (herr : ∃ m, svc (k - 1) = SnapResponse.err m) :
    ((onClickEvents svc vW vH maxScroll targetY step originalScroll).filter
        isSnapshotEv).length = k ∧
    CaptureEvent.stitchEv ∉
      onClickEvents svc vW vH maxScroll targetY step originalScroll ∧
    CaptureEvent.persistEv ∉
      onClickEvents svc vW vH maxScroll targetY step originalScroll ∧
    ∃ pre, onClickEvents svc vW vH maxScroll targetY step originalScroll =
      pre ++ [CaptureEvent.scrollTo originalScroll, CaptureEvent.deactivateEv] := by
  obtain ⟨evs, m, hcs, hlen⟩ :=
    captureSteps_err svc vW vH maxScroll (scrollPositions targetY step) 0 k hk1 hkn
      (fun j hj => by simpa using hok j hj)
      (by simpa using herr)
  have hperf : performCaptureEvents svc vW vH maxScroll targetY step = evs := by
    unfold performCaptureEvents
    rw [if_neg (not_le.mpr hT), hcs]
  have honc : onClickEvents svc vW vH maxScroll targetY step originalScroll =
      evs ++ [CaptureEvent.scrollTo originalScroll, CaptureEvent.deactivateEv] := by
    unfold onClickEvents
    rw [hperf]
  have hkind := captureSteps_events_kind svc vW vH maxScroll
    (scrollPositions targetY step) 0
  rw [hcs] at hkind
  refine ⟨?_, ?_, ?_, ⟨evs, honc⟩⟩
  · rw [honc, List.filter_append, List.length_append, hlen]
    simp [isSnapshotEv]
  · rw [honc]
    intro hmem
    rcases List.mem_append.mp hmem with hmem | hmem
    · rcases hkind _ hmem with ⟨y, hy⟩ | ⟨j, hj⟩ <;> simp_all
    · simp at hmem
  · rw [honc]
    intro hmem
    rcases List.mem_append.mp hmem with hmem | hmem
    · rcases hkind _ hmem with ⟨y, hy⟩ | ⟨j, hj⟩ <;> simp_all
    · simp at hmem

/-- Witness for C4 at scenario D shape: 4 steps, service rejects on step 2:
two snapshot calls total, no stitch, no persistence, scroll restored. -/
theorem c4_snapshot_failure_witness :
    2 ≤ (scrollPositions 4 1).length ∧
    (((onClickEvents failSecondSvc 100 800 10000 4 1 7).filter
        isSnapshotEv).length = 2 ∧
      CaptureEvent.stitchEv ∉ onClickEvents failSecondSvc 100 800 10000 4 1 7 ∧
      CaptureEvent.persistEv ∉ onClickEvents failSecondSvc 100 800 10000 4 1 7 ∧
      ∃ pre, onClickEvents failSecondSvc 100 800 10000 4 1 7 =
        pre ++ [CaptureEvent.scrollTo 7, CaptureEvent.deactivateEv]) := by
  have hlen : (scrollPositions 4 1).length = 4 := by
    rw [scrollPositions_closed_form 4 1 (by norm_num) (by norm_num)]
    have hc : (⌈(4 : ℚ) / 1⌉ : ℤ) = 4 := by
      rw [Int.ceil_eq_iff] <;> norm_num
    simp [hc]
  refine ⟨by omega, ?_⟩
  exact c4_snapshot_failure failSecondSvc 100 800 10000 4 1 7 2 (by norm_num)
    (by norm_num) (by omega)
    (fun j hj => by
      have hj0 : j = 0 := by omega
      subst hj0
      exact ⟨emptyStr, rfl⟩)
    ⟨emptyStr, rfl⟩

/-- Claim C2: document-mode stitching allocates a `ceil(W*d) × ceil(T*d)`
white surface and draws each frame at `round(offset*d)`, clipped to the
remaining surface height; a frame whose offset maps at or past the surface
height contributes nothing. -/
theorem c2_window_stitch (captures : List Frame) (targetY viewportWidth dpr : ℚ)
    (hne : captures ≠ [])
    (hpos : ∀ f ∈ captures, 0 < f.height) :
    (stitchWindowScroll captures targetY viewportWidth dpr).height =
      ⌈targetY * dpr⌉ ∧
    (stitchWindowScroll captures targetY viewportWidth dpr).width =
      ⌈viewportWidth * dpr⌉ ∧
    (stitchWindowScroll captures targetY viewportWidth dpr).background =
      whiteStr ∧
    (stitchWindowScroll captures targetY viewportWidth dpr).ops =
      captures.filterMap (specWindowDraw ⌈targetY * dpr⌉ dpr) := by
  have hne2 := hne
  clear hne2
  refine ⟨rfl, rfl, rfl, ?_⟩
  unfold stitchWindowScroll
  dsimp only
  apply list_filterMap_congr
  intro c hcmem
  have hc : (0 : ℤ) < (c.height : ℤ) := by exact_mod_cast hpos c hcmem
  unfold specWindowDraw
  dsimp only
  by_cases hlt : round (c.scrollY * dpr) < ⌈targetY * dpr⌉
  · have hmin : 0 < min (c.height : ℤ)
        (⌈targetY * dpr⌉ - round (c.scrollY * dpr)) := by
      rw [lt_min_iff]
      exact ⟨hc, by omega⟩
    rw [if_pos hmin, if_pos hlt]
  · have hmin : ¬ 0 < min (c.height : ℤ)
        (⌈targetY * dpr⌉ - round (c.scrollY * dpr)) := by
      rw [not_lt, min_le_iff]
      right
      omega
    rw [if_neg hmin, if_neg hlt]

/-- Witness for C2: two 100×800 frames at offsets 0 and 800, target 1000,
density 1. -/
theorem c2_window_stitch_witness :
    (([⟨100, 800, 0⟩, ⟨100, 800, 800⟩] : List Frame) ≠ [] ∧
      ∀ f ∈ ([⟨100, 800, 0⟩, ⟨100, 800, 800⟩] : List Frame), 0 < f.height) ∧
    ((stitchWindowScroll [⟨100, 800, 0⟩, ⟨100, 800, 800⟩] 1000 100 1).height =
        ⌈(1000 : ℚ) * 1⌉ ∧
      (stitchWindowScroll [⟨100, 800, 0⟩, ⟨100, 800, 800⟩] 1000 100 1).width =
        ⌈(100 : ℚ) * 1⌉ ∧
      (stitchWindowScroll [⟨100, 800, 0⟩, ⟨100, 800, 800⟩] 1000 100 1).background =
        whiteStr ∧
      (stitchWindowScroll [⟨100, 800, 0⟩, ⟨100, 800, 800⟩] 1000 100 1).ops =
        List.filterMap (specWindowDraw ⌈(1000 : ℚ) * 1⌉ 1)
          [⟨100, 800, 0⟩, ⟨100, 800, 800⟩]) :=
  ⟨⟨by simp, by decide⟩,
    c2_window_stitch [⟨100, 800, 0⟩, ⟨100, 800, 800⟩] 1000 100 1 (by simp)
      (by decide)⟩

theorem containerOps_spec (H L : ℤ) :
    ∀ (captures : List Frame) (hne : captures ≠ []),
      (∀ f ∈ captures, (f.height : ℤ) = H) → ∀ (n : ℕ) (base : ℤ),
      containerOps H L (base + (n : ℤ) * H) captures =
        ((captures.dropLast.enumFrom n).map (fun p =>
          (⟨(p.2.width : ℤ), H, base + (p.1 : ℤ) * H, H⟩ : DrawOp))) ++
          [⟨((captures.getLast hne).width : ℤ), L,
            base + ((n : ℤ) + (captures.length : ℤ) - 1) * H, L⟩] := by
  intro captures
  induction captures with
  | nil => intro hne; exact absurd rfl hne
  | cons f rest ih =>
    intro hne hH n base
    cases rest with
    | nil =>
      simp only [containerOps, List.dropLast_single, List.enumFrom,
        List.map_nil, List.nil_append, List.getLast_singleton,
        List.length_cons, List.length_nil]
      congr 2
      push_cast
      ring
    | cons g rest2 =>
      have hfH : (f.height : ℤ) = H := hH f (by simp)
      have hgne : g :: rest2 ≠ [] := List.cons_ne_nil g rest2
      have hstep : base + (n : ℤ) * H + H = base + ((n + 1 : ℕ) : ℤ) * H := by
        push_cast
        ring
      rw [containerOps, hstep,
        ih hgne (fun x hx => hH x (by simp [hx])) (n + 1) base]
      rw [List.dropLast_cons₂, List.enumFrom_cons, List.getLast_cons hgne]
      simp only [List.map_cons, List.cons_append]
      congr 1
      · rw [hfH]
      congr 1
      congr 1
      simp only [List.length_cons]
      push_cast
      ring

/-- Claim C3: container-mode stitching crops the last of `n` common-height
frames to `min(ceil((viewportOffset + (T - lastOffset)) * d), H)` (hence at
most `H`), stacks the first `n-1` frames full height, draws only the
leading crop rows of the last, and the output height is
`(n-1)*H + lastCropHeight`. -/
theorem c3_container_stitch (captures : List Frame)
    (targetY dpr containerTop : ℚ) (H : ℕ) (hne : captures ≠ [])
    (hH : ∀ f ∈ captures, f.height = H) :
    ∃ c : Canvas,
      stitchContainerScroll captures targetY dpr containerTop = some c ∧
      specLastCrop captures targetY dpr containerTop H hne ≤ (H : ℤ) ∧
      c.height = ((captures.length : ℤ) - 1) * (H : ℤ) +
        specLastCrop captures targetY dpr containerTop H hne ∧
      c.ops = specContainerOps captures (captures.getLast hne) H
        (specLastCrop captures targetY dpr containerTop H hne) := by
  obtain ⟨c0, rest, rfl⟩ : ∃ a l, captures = a :: l := by
    cases captures with
    | nil => exact absurd rfl hne
    | cons a l => exact ⟨a, l, rfl⟩
  have hc0H : c0.height = H := hH c0 (by simp)
  refine ⟨_, rfl, ?_, ?_, ?_⟩
  · unfold specLastCrop
    exact min_le_right _ _
  · dsimp only
    unfold specLastCrop
    rw [← hc0H]
    congr 1
    simp only [List.length_cons, Nat.add_sub_cancel]
    push_cast
    ring
  · dsimp only
    unfold specContainerOps specLastCrop
    rw [← hc0H]
    have h0 : (0 : ℤ) = 0 + ((0 : ℕ) : ℤ) * (c0.height : ℤ) := by
      push_cast
      ring
    rw [h0, containerOps_spec (c0.height : ℤ) _ (c0 :: rest) hne
      (fun x hx => by rw [hH x hx, hc0H]) 0 0]
    congr 1
    · apply List.map_congr_left
      intro p _
      congr 1
      ring
    · congr 2
      push_cast
      ring

/-- Witness for C3 at scenario B of the spec: two 800×600 frames, click row
340 into the final frame, output height 600 + 340 = 940. -/
theorem c3_container_stitch_witness :
    (∀ f ∈ ([⟨800, 600, 0⟩, ⟨800, 600, 600⟩] : List Frame), f.height = 600) ∧
    ∃ c : Canvas,
      stitchContainerScroll [⟨800, 600, 0⟩, ⟨800, 600, 600⟩] 940 1 0 = some c ∧
      specLastCrop [⟨800, 600, 0⟩, ⟨800, 600, 600⟩] 940 1 0 600
        (List.cons_ne_nil (⟨800, 600, 0⟩ : Frame) [(⟨800, 600, 600⟩ : Frame)]) ≤ (600 : ℤ) ∧
      c.height = ((([⟨800, 600, 0⟩, ⟨800, 600, 600⟩] : List Frame).length : ℤ) - 1) *
          (600 : ℤ) +
        specLastCrop [⟨800, 600, 0⟩, ⟨800, 600, 600⟩] 940 1 0 600
          (List.cons_ne_nil (⟨800, 600, 0⟩ : Frame) [(⟨800, 600, 600⟩ : Frame)]) ∧
      c.ops = specContainerOps [⟨800, 600, 0⟩, ⟨800, 600, 600⟩]
        (([⟨800, 600, 0⟩, ⟨800, 600, 600⟩] : List Frame).getLast
          (List.cons_ne_nil (⟨800, 600, 0⟩ : Frame) [(⟨800, 600, 600⟩ : Frame)])) 600
        (specLastCrop [⟨800, 600, 0⟩, ⟨800, 600, 600⟩] 940 1 0 600
          (List.cons_ne_nil (⟨800, 600, 0⟩ : Frame) [(⟨800, 600, 600⟩ : Frame)])) :=
  ⟨by decide,
    c3_container_stitch [⟨800, 600, 0⟩, ⟨800, 600, 600⟩] 940 1 0 600
      (List.cons_ne_nil (⟨800, 600, 0⟩ : Frame) [(⟨800, 600, 600⟩ : Frame)]) (by decide)⟩

theorem findE_setVisDecl_ne (i j : ℕ) (v p : String) (hne : j ≠ i) :
    ∀ d : List Elem, findE (setVisDecl d j v p) i = findE d i := by
  intro d
  induction d with
  | nil => rfl
  | cons e tl ih =>
    cases hj : (e.eid == j) with
    | true =>
      have he : e.eid = j := by simpa using hj
      have hij : (e.eid == i) = false := by
        simp only [beq_eq_false_iff_ne, he]
        exact hne
      show findE ((if e.eid == j then
          { e with visibility := v, visPriority := p } else e) ::
        setVisDecl tl j v p) i = findE (e :: tl) i
      rw [hj, if_pos rfl]
      unfold findE
      rw [@List.find?_cons_of_neg _ (fun e => e.eid == i) _ (setVisDecl tl j v p)
          (by simp [hij]),
        @List.find?_cons_of_neg _ (fun e => e.eid == i) e tl (by simp [hij])]
      exact ih
    | false =>
      show findE ((if e.eid == j then
          { e with visibility := v, visPriority := p } else e) ::
        setVisDecl tl j v p) i = findE (e :: tl) i
      rw [hj, if_neg (by simp)]
      cases hi : (e.eid == i) with
      | true =>
        unfold findE
        rw [@List.find?_cons_of_pos _ (fun e => e.eid == i) e
            (setVisDecl tl j v p) hi,
          @List.find?_cons_of_pos _ (fun e => e.eid == i) e tl hi]
      | false =>
        unfold findE
        rw [@List.find?_cons_of_neg _ (fun e => e.eid == i) e
            (setVisDecl tl j v p) (by simp [hi]),
          @List.find?_cons_of_neg _ (fun e => e.eid == i) e tl (by simp [hi])]
        exact ih

theorem setVisDecl_setVisDecl_same (d : List Elem) (i : ℕ) (v p w q : String) :
    setVisDecl (setVisDecl d i v p) i w q = setVisDecl d i w q := by
  simp only [setVisDecl, List.map_map]
  apply List.map_congr_left
  intro e _
  cases h : (e.eid == i) <;> simp [Function.comp, h]

theorem setVisDecl_comm (d : List Elem) (i j : ℕ) (v p w q : String)
    (hne : i ≠ j) :
    setVisDecl (setVisDecl d i v p) j w q =
      setVisDecl (setVisDecl d j w q) i v p := by
  simp only [setVisDecl, List.map_map]
  apply List.map_congr_left
  intro e _
  cases hi : (e.eid == i) with
  | true =>
    have h1 : e.eid = i := by simpa using hi
    have hj : (e.eid == j) = false := by
      simp only [beq_eq_false_iff_ne, h1]
      exact hne
    simp [Function.comp, hi, hj]
  | false =>
    cases hj : (e.eid == j) <;> simp [Function.comp, hi, hj]

theorem setVisDecl_id_of_not_mem (d : List Elem) (i : ℕ) (v p : String)
    (h : i ∉ d.map Elem.eid) : setVisDecl d i v p = d := by
  induction d with
  | nil => rfl
  | cons e tl ih =>
    simp only [List.map_cons, List.mem_cons] at h
    push_neg at h
    have hei : (e.eid == i) = false := by
      simp only [beq_eq_false_iff_ne]
      exact fun hh => h.1 hh.symm
    simp only [setVisDecl, List.map_cons, hei, Bool.false_eq_true, if_false]
    exact congrArg (e :: ·) (ih h.2)

theorem setPrio_comm (d : List Elem) (i j : ℕ) (p q : String) (hne : i ≠ j) :
    setPrio (setPrio d i p) j q = setPrio (setPrio d j q) i p := by
  simp only [setPrio, List.map_map]
  apply List.map_congr_left
  intro e _
  cases hi : (e.eid == i) with
  | true =>
    have h1 : e.eid = i := by simpa using hi
    have hj : (e.eid == j) = false := by
      simp only [beq_eq_false_iff_ne, h1]
      exact hne
    simp [Function.comp, hi, hj]
  | false =>
    cases hj : (e.eid == j) <;> simp [Function.comp, hi, hj]

theorem findE_none_iff (d : List Elem) (i : ℕ) :
    findE d i = none ↔ i ∉ d.map Elem.eid := by
  unfold findE
  rw [List.find?_eq_none]
  constructor
  · intro h hmem
    obtain ⟨e, he, heq⟩ := List.mem_map.mp hmem
    exact (h e he) (by simp [heq])
  · intro h e he
    simp only [Bool.not_eq_true, beq_eq_false_iff_ne, ne_eq]
    intro heq
    exact h (List.mem_map.mpr ⟨e, he, heq⟩)

theorem findE_of_mem_nodup (i : ℕ) :
    ∀ d : List Elem, (d.map Elem.eid).Nodup → ∀ e ∈ d, e.eid = i →
      findE d i = some e := by
  intro d
  induction d with
  | nil => intro _ e he; exact absurd he (List.not_mem_nil e)
  | cons x tl ih =>
    intro hN e he heid
    simp only [List.map_cons, List.nodup_cons] at hN
    rcases List.mem_cons.mp he with he | he
    · subst he
      unfold findE
      exact @List.find?_cons_of_pos _ (fun e => e.eid == i) e tl (by simp [heid])
    · have hx : (x.eid == i) = false := by
        simp only [beq_eq_false_iff_ne]
        intro hxi
        exact hN.1 (List.mem_map.mpr ⟨e, he, by rw [heid, hxi]⟩)
      unfold findE
      rw [@List.find?_cons_of_neg _ (fun e => e.eid == i) x tl (by simp [hx])]
      exact ih hN.2 e he heid

theorem setVisDecl_visOf_prio (d : List Elem) (i : ℕ)
    (hN : (d.map Elem.eid).Nodup) :
    setVisDecl d i (visOf d i) emptyStr = setPrio d i emptyStr := by
  unfold setVisDecl setPrio
  apply List.map_congr_left
  intro e he
  cases hx : (e.eid == i) with
  | true =>
    have heid : e.eid = i := by simpa using hx
    have hfind : findE d i = some e := findE_of_mem_nodup i d hN e he heid
    have hv : visOf d i = e.visibility := by
      unfold visOf
      rw [hfind]
    rw [if_pos rfl, if_pos rfl, hv]
  | false =>
    rw [if_neg (by simp), if_neg (by simp)]

theorem setPrio_id_of_prio_empty (d : List Elem) (i : ℕ)
    (hall : ∀ e ∈ d, e.visPriority = emptyStr) :
    setPrio d i emptyStr = d := by
  unfold setPrio
  have h : ∀ e ∈ d,
      (if e.eid == i then { e with visPriority := emptyStr } else e) = e := by
    intro e he
    cases hx : (e.eid == i) with
    | true =>
      rw [if_pos rfl, ← hall e he]
    | false =>
      rw [if_neg (by simp)]
  calc d.map (fun e => if e.eid == i then { e with visPriority := emptyStr }
        else e)
      = d.map id := List.map_congr_left h
    _ = d := List.map_id d

theorem visOf_setPrio (i j : ℕ) (p : String) :
    ∀ d : List Elem, visOf (setPrio d j p) i = visOf d i := by
  intro d
  induction d with
  | nil => rfl
  | cons e tl ih =>
    cases hj : (e.eid == j) with
    | true =>
      show visOf ((if e.eid == j then { e with visPriority := p } else e) ::
        setPrio tl j p) i = visOf (e :: tl) i
      rw [hj, if_pos rfl]
      cases hi : (e.eid == i) with
      | true =>
        unfold visOf findE
        rw [@List.find?_cons_of_pos _ (fun e => e.eid == i)
            ({ e with visPriority := p }) (setPrio tl j p) hi,
          @List.find?_cons_of_pos _ (fun e => e.eid == i) e tl hi]
      | false =>
        unfold visOf findE
        rw [@List.find?_cons_of_neg _ (fun e => e.eid == i)
            ({ e with visPriority := p }) (setPrio tl j p) (by simp [hi]),
          @List.find?_cons_of_neg _ (fun e => e.eid == i) e tl (by simp [hi])]
        exact ih
    | false =>
      show visOf ((if e.eid == j then { e with visPriority := p } else e) ::
        setPrio tl j p) i = visOf (e :: tl) i
      rw [hj, if_neg (by simp)]
      cases hi : (e.eid == i) with
      | true =>
        unfold visOf findE
        rw [@List.find?_cons_of_pos _ (fun e => e.eid == i) e (setPrio tl j p) hi,
          @List.find?_cons_of_pos _ (fun e => e.eid == i) e tl hi]
      | false =>
        unfold visOf findE
        rw [@List.find?_cons_of_neg _ (fun e => e.eid == i) e (setPrio tl j p)
            (by simp [hi]),
          @List.find?_cons_of_neg _ (fun e => e.eid == i) e tl (by simp [hi])]
        exact ih

theorem setPrio_eid_map (d : List Elem) (j : ℕ) (p : String) :
    (setPrio d j p).map Elem.eid = d.map Elem.eid := by
  simp only [setPrio, List.map_map]
  apply List.map_congr_left
  intro e _
  cases h : (e.eid == j) <;> simp [Function.comp, h]

theorem setPrio_visMap (d : List Elem) (j : ℕ) (p : String) :
    (setPrio d j p).map (fun e => (e.eid, e.visibility)) =
      d.map (fun e => (e.eid, e.visibility)) := by
  simp only [setPrio, List.map_map]
  apply List.map_congr_left
  intro e _
  cases h : (e.eid == j) <;> simp [Function.comp, h]

theorem clearPriorities_eid_map :
    ∀ (recs : List HRec) (d : List Elem),
      (clearPriorities d recs).map Elem.eid = d.map Elem.eid := by
  intro recs
  induction recs with
  | nil => intro d; rfl
  | cons r rs ih =>
    intro d
    show (clearPriorities (setPrio d r.eid emptyStr) rs).map Elem.eid = _
    rw [ih, setPrio_eid_map]

theorem clearPriorities_visMap :
    ∀ (recs : List HRec) (d : List Elem),
      (clearPriorities d recs).map (fun e => (e.eid, e.visibility)) =
        d.map (fun e => (e.eid, e.visibility)) := by
  intro recs
  induction recs with
  | nil => intro d; rfl
  | cons r rs ih =>
    intro d
    show (clearPriorities (setPrio d r.eid emptyStr) rs).map _ = _
    rw [ih, setPrio_visMap]

theorem visOf_clearPriorities (i : ℕ) :
    ∀ (recs : List HRec) (d : List Elem),
      visOf (clearPriorities d recs) i = visOf d i := by
  intro recs
  induction recs with
  | nil => intro d; rfl
  | cons r rs ih =>
    intro d
    show visOf (clearPriorities (setPrio d r.eid emptyStr) rs) i = _
    rw [ih, visOf_setPrio]

theorem clearPriorities_id_of_prio_empty (d : List Elem)
    (hall : ∀ e ∈ d, e.visPriority = emptyStr) :
    ∀ recs : List HRec, clearPriorities d recs = d := by
  intro recs
  induction recs with
  | nil => rfl
  | cons r rs ih =>
    show clearPriorities (setPrio d r.eid emptyStr) rs = d
    rw [setPrio_id_of_prio_empty d r.eid hall]
    exact ih

theorem clearPriorities_setPrio_comm (i : ℕ) :
    ∀ (recs : List HRec) (d : List Elem), (∀ r ∈ recs, r.eid ≠ i) →
      clearPriorities (setPrio d i emptyStr) recs =
        setPrio (clearPriorities d recs) i emptyStr := by
  intro recs
  induction recs with
  | nil => intro d _; rfl
  | cons r rs ih =>
    intro d h
    show clearPriorities (setPrio (setPrio d i emptyStr) r.eid emptyStr) rs = _
    rw [setPrio_comm d i r.eid emptyStr emptyStr
      (fun hh => (h r (by simp)) hh.symm)]
    exact ih _ (fun x hx => h x (by simp [hx]))

theorem findE_applyHides_notin (i : ℕ) :
    ∀ (recs : List HRec) (d : List Elem), (∀ r ∈ recs, r.eid ≠ i) →
      findE (applyHides d recs) i = findE d i := by
  intro recs
  induction recs with
  | nil => intro d _; rfl
  | cons r rs ih =>
    intro d h
    show findE
      (applyHides (setVisDecl d r.eid visHiddenStr importantStr) rs) i =
      findE d i
    rw [ih _ (fun x hx => h x (by simp [hx]))]
    exact findE_setVisDecl_ne i r.eid visHiddenStr importantStr
      (h r (by simp)) d

theorem applyHides_setVisDecl_comm (i : ℕ) (v p : String) :
    ∀ (recs : List HRec) (d : List Elem), (∀ r ∈ recs, r.eid ≠ i) →
      applyHides (setVisDecl d i v p) recs =
        setVisDecl (applyHides d recs) i v p := by
  intro recs
  induction recs with
  | nil => intro d _; rfl
  | cons r rs ih =>
    intro d h
    show applyHides (setVisDecl (setVisDecl d i v p) r.eid
      visHiddenStr importantStr) rs =
      setVisDecl (applyHides (setVisDecl d r.eid visHiddenStr importantStr) rs)
        i v p
    rw [setVisDecl_comm d i r.eid v p visHiddenStr importantStr
      (fun hh => (h r (by simp)) hh.symm)]
    exact ih _ (fun x hx => h x (by simp [hx]))

theorem restoreHiddenElements_eq :
    ∀ (recs : List HRec) (d : List Elem),
      restoreHiddenElements d recs =
        recs.foldl (fun a r => setVisDecl a r.eid r.prev emptyStr) d := by
  intro recs
  induction recs with
  | nil => intro d; rfl
  | cons r rs ih =>
    intro d
    show restoreHiddenElements
      (if r.prev == emptyStr then setVisDecl d r.eid emptyStr emptyStr
        else setVisDecl d r.eid r.prev emptyStr) rs = _
    have hstep : (if r.prev == emptyStr then setVisDecl d r.eid emptyStr emptyStr
        else setVisDecl d r.eid r.prev emptyStr) =
        setVisDecl d r.eid r.prev emptyStr := by
      cases hp : (r.prev == emptyStr) with
      | true =>
        have : r.prev = emptyStr := by simpa using hp
        rw [if_pos rfl, this]
      | false => rw [if_neg (by simp [hp])]
    rw [hstep]
    exact ih (setVisDecl d r.eid r.prev emptyStr)

theorem restoreFold_setVisDecl_comm (i : ℕ) (v p : String) :
    ∀ (recs : List HRec) (d : List Elem), (∀ r ∈ recs, r.eid ≠ i) →
      recs.foldl (fun a r => setVisDecl a r.eid r.prev emptyStr)
        (setVisDecl d i v p) =
        setVisDecl (recs.foldl (fun a r => setVisDecl a r.eid r.prev emptyStr) d)
          i v p := by
  intro recs
  induction recs with
  | nil => intro d _; rfl
  | cons r rs ih =>
    intro d h
    show rs.foldl _ (setVisDecl (setVisDecl d i v p) r.eid r.prev emptyStr) = _
    rw [setVisDecl_comm d i r.eid v p r.prev emptyStr
      (fun hh => (h r (by simp)) hh.symm)]
    exact ih _ (fun x hx => h x (by simp [hx]))

theorem restore_applyHides (dom : List Elem)
    (hN : (dom.map Elem.eid).Nodup) :
    ∀ recs : List HRec, (recs.map HRec.eid).Nodup →
      (∀ r ∈ recs, r.prev = visOf dom r.eid) →
      restoreHiddenElements (applyHides dom recs) recs =
        clearPriorities dom recs := by
  intro recs
  induction recs with
  | nil => intro _ _; rfl
  | cons r rs ih =>
    intro hNr hprev
    have hri : r.eid ∉ rs.map HRec.eid := (List.nodup_cons.mp hNr).1
    have hrs : ∀ x ∈ rs, x.eid ≠ r.eid := by
      intro x hx heq
      exact hri (List.mem_map.mpr ⟨x, hx, heq⟩)
    rw [restoreHiddenElements_eq]
    show rs.foldl (fun a x => setVisDecl a x.eid x.prev emptyStr)
      ((fun a x => setVisDecl a x.eid x.prev emptyStr)
        (applyHides (setVisDecl dom r.eid visHiddenStr importantStr) rs) r) = _
    rw [applyHides_setVisDecl_comm r.eid visHiddenStr importantStr rs dom hrs]
    show rs.foldl (fun a x => setVisDecl a x.eid x.prev emptyStr)
      (setVisDecl (setVisDecl (applyHides dom rs) r.eid visHiddenStr
        importantStr) r.eid r.prev emptyStr) = _
    rw [setVisDecl_setVisDecl_same]
    rw [restoreFold_setVisDecl_comm r.eid r.prev emptyStr rs _ hrs]
    rw [← restoreHiddenElements_eq]
    rw [ih (List.nodup_cons.mp hNr).2 (fun x hx => hprev x (by simp [hx]))]
    rw [hprev r (by simp)]
    have hvis : visOf dom r.eid = visOf (clearPriorities dom rs) r.eid :=
      (visOf_clearPriorities r.eid rs dom).symm
    rw [hvis]
    have hNc : ((clearPriorities dom rs).map Elem.eid).Nodup := by
      rw [clearPriorities_eid_map]
      exact hN
    rw [setVisDecl_visOf_prio (clearPriorities dom rs) r.eid hNc]
    show _ = clearPriorities (setPrio dom r.eid emptyStr) rs
    rw [clearPriorities_setPrio_comm r.eid rs dom hrs]

theorem suppress_step (dom0 : List Elem) (st : List Elem × List HRec)
    (i : ℕ) (el : Elem) (hInv : SuppressInv dom0 st)
    (hnot : i ∉ st.2.map HRec.eid) (hfind : findE st.1 i = some el) :
    SuppressInv dom0
      (setVisDecl st.1 i visHiddenStr importantStr,
        st.2 ++ [⟨i, el.visibility⟩]) := by
  obtain ⟨hN, hprev, heq⟩ := hInv
  have hne : ∀ r ∈ st.2, r.eid ≠ i := by
    intro r hr hcontra
    exact hnot (List.mem_map.mpr ⟨r, hr, hcontra⟩)
  refine ⟨?_, ?_, ?_⟩
  · rw [List.map_append]
    simp [List.nodup_append, hN, hnot]
  · intro r hr
    rcases List.mem_append.mp hr with hr | hr
    · exact hprev r hr
    · simp only [List.mem_singleton] at hr
      subst hr
      show el.visibility = visOf dom0 i
      have h1 : findE st.1 i = findE dom0 i := by
        rw [heq]
        exact findE_applyHides_notin i st.2 dom0 hne
      unfold visOf
      rw [← h1, hfind]
  · rw [heq]
    show setVisDecl (applyHides dom0 st.2) i visHiddenStr importantStr =
      applyHides dom0 (st.2 ++ [⟨i, el.visibility⟩])
    unfold applyHides
    rw [List.foldl_append]
    rfl

theorem hideFixed_inv (dom0 : List Elem) :
    ∀ (order : List ℕ) (st : List Elem × List HRec),
      SuppressInv dom0 st → order.Nodup →
      (∀ i ∈ order, i ∉ st.2.map HRec.eid) →
      SuppressInv dom0 (hideFixed order st.1 st.2) := by
  intro order
  induction order with
  | nil => intro st hInv _ _; exact hInv
  | cons i rest ih =>
    intro st hInv hNd hdisj
    have hNr : rest.Nodup := (List.nodup_cons.mp hNd).2
    have hir : i ∉ rest := (List.nodup_cons.mp hNd).1
    unfold hideFixed
    split
    · exact ih st hInv hNr (fun j hj => hdisj j (by simp [hj]))
    · rename_i el hfind
      split
      · exact ih st hInv hNr (fun j hj => hdisj j (by simp [hj]))
      · split
        · have hnot : i ∉ st.2.map HRec.eid := hdisj i (by simp)
          have hstep := suppress_step dom0 st i el hInv hnot hfind
          exact ih (setVisDecl st.1 i visHiddenStr importantStr,
              st.2 ++ [(⟨i, el.visibility⟩ : HRec)])
            hstep hNr (fun j hj => by
              show j ∉ (st.2 ++ [(⟨i, el.visibility⟩ : HRec)]).map HRec.eid
              rw [List.map_append]
              intro hmem
              rcases List.mem_append.mp hmem with hmem | hmem
              · exact hdisj j (by simp [hj]) hmem
              · simp only [List.map_cons, List.map_nil,
                  List.mem_singleton] at hmem
                subst hmem
                exact hir hj)
        · exact ih st hInv hNr (fun j hj => hdisj j (by simp [hj]))

theorem hideSiblings_inv (dom0 : List Elem) (cT cB : ℚ) (cur : ℕ) :
    ∀ (sibs : List ℕ) (st : List Elem × List HRec),
      SuppressInv dom0 st →
      SuppressInv dom0 (hideSiblings cT cB cur sibs st.1 st.2) := by
  intro sibs
  induction sibs with
  | nil => intro st hInv; exact hInv
  | cons s rest ih =>
    intro st hInv
    unfold hideSiblings
    split
    · exact ih st hInv
    · split
      · exact ih st hInv
      · rename_i sib hfind
        split
        · exact ih st hInv
        · split
          · exact ih st hInv
          · rename_i hany
            split
            · have hnot : s ∉ st.2.map HRec.eid := by
                intro hmem
                obtain ⟨r, hr, heq⟩ := List.mem_map.mp hmem
                have hfalse : (st.2.any fun h => h.eid == s) = false := by
                  simpa using hany
                have := List.any_eq_false.mp hfalse r hr
                simp [heq] at this
              exact ih (setVisDecl st.1 s visHiddenStr importantStr,
                st.2 ++ [(⟨s, sib.visibility⟩ : HRec)])
                (suppress_step dom0 st s sib hInv hnot hfind)
            · exact ih st hInv

theorem walkUp_inv (dom0 : List Elem) (cT cB : ℚ) (rootId : ℕ) :
    ∀ (fuel : ℕ) (cur : ℕ) (st : List Elem × List HRec),
      SuppressInv dom0 st →
      SuppressInv dom0 (walkUp cT cB rootId fuel cur st) := by
  intro fuel
  induction fuel with
  | zero => intro cur st hInv; exact hInv
  | succ fuel ih =>
    intro cur st hInv
    obtain ⟨dom, recs⟩ := st
    unfold walkUp
    split
    · exact hInv
    · split
      · exact hInv
      · rename_i pid hp
        exact ih pid
          (hideSiblings cT cB cur (childIds dom pid) dom recs)
          (hideSiblings_inv dom0 cT cB cur (childIds dom pid) (dom, recs) hInv)

theorem hideOverlayElements_inv (dom : List Elem) (cid : Option ℕ)
    (rootId : ℕ) (hN : (dom.map Elem.eid).Nodup) :
    SuppressInv dom (hideOverlayElements dom cid rootId) := by
  have h0 : SuppressInv dom (dom, ([] : List HRec)) := by
    refine ⟨List.nodup_nil, ?_, rfl⟩
    intro r hr
    simp at hr
  have h1 := hideFixed_inv dom (dom.map (fun e => e.eid)) (dom, []) h0
    (by exact hN) (by intro i _ hmem; simp at hmem)
  unfold hideOverlayElements
  cases cid with
  | none => exact h1
  | some c =>
    dsimp only
    cases hf : findE (hideFixed (dom.map (fun e => e.eid)) dom []).1 c with
    | none => exact h1
    | some cel =>
      exact walkUp_inv dom cel.rectTop cel.rectBottom rootId (dom.length + 1) c
        (hideFixed (dom.map (fun e => e.eid)) dom []) h1

/-- Counterexample to claim C6: an element whose pre-suppression inline
declaration is `visibility: visible !important` is hidden via
`setProperty(..., 'important')` but restored by plain assignment, which
drops the priority flag — the round trip is not bit-identical, and a style
mutation (the lost `!important`) survives. -/
theorem c6_counterexample :
    c6CexDom.map Elem.visPriority = [importantStr] ∧
    (restoreHiddenElements (hideOverlayElements c6CexDom none 1).1
      (hideOverlayElements c6CexDom none 1).2).map Elem.visPriority =
      [emptyStr] ∧
    (restoreHiddenElements (hideOverlayElements c6CexDom none 1).1
      (hideOverlayElements c6CexDom none 1).2).map Elem.visibility =
      c6CexDom.map Elem.visibility ∧
    restoreHiddenElements (hideOverlayElements c6CexDom none 1).1
      (hideOverlayElements c6CexDom none 1).2 ≠ c6CexDom := by
  have h1 : c6CexDom.map Elem.visPriority = [importantStr] := rfl
  have h2 : (restoreHiddenElements (hideOverlayElements c6CexDom none 1).1
      (hideOverlayElements c6CexDom none 1).2).map Elem.visPriority =
      [emptyStr] := rfl
  refine ⟨h1, h2, rfl, ?_⟩
  intro hcontra
  have h3 := congrArg (List.map Elem.visPriority) hcontra
  rw [h1, h2] at h3
  have h4 : emptyStr = importantStr := by
    injection h3
  exact absurd h4 (by decide)

/-- Claim C6 as amended: restoring with the returned records brings every
touched element's inline visibility value back verbatim (the prior value
written back, the override cleared when none existed), so the visibility
values round-trip bit-identically; but the priority flag does not — the
restored DOM is exactly the original with each recorded element's inline
priority reset, because the hide writes `hidden !important` while the
restore assigns the value without a priority.  In particular, when no
element carried an inline `!important` visibility beforehand, the round
trip is bit-identical. -/
theorem c6_suppress_restore_amended (dom : List Elem) (cid : Option ℕ)
    (rootId : ℕ) (hN : (dom.map Elem.eid).Nodup) :
    restoreHiddenElements (hideOverlayElements dom cid rootId).1
      (hideOverlayElements dom cid rootId).2 =
      clearPriorities dom (hideOverlayElements dom cid rootId).2 ∧
    (restoreHiddenElements (hideOverlayElements dom cid rootId).1
      (hideOverlayElements dom cid rootId).2).map
        (fun e => (e.eid, e.visibility)) =
      dom.map (fun e => (e.eid, e.visibility)) ∧
    ((∀ e ∈ dom, e.visPriority = emptyStr) →
      restoreHiddenElements (hideOverlayElements dom cid rootId).1
        (hideOverlayElements dom cid rootId).2 = dom) := by
  obtain ⟨hNr, hprev, heq⟩ := hideOverlayElements_inv dom cid rootId hN
  have h1 : restoreHiddenElements (hideOverlayElements dom cid rootId).1
      (hideOverlayElements dom cid rootId).2 =
      clearPriorities dom (hideOverlayElements dom cid rootId).2 := by
    rw [heq]
    exact restore_applyHides dom hN _ hNr hprev
  refine ⟨h1, ?_, ?_⟩
  · rw [h1]
    exact clearPriorities_visMap _ dom
  · intro hall
    rw [h1]
    exact clearPriorities_id_of_prio_empty dom hall _

/-- Witness for the amended C6 on a concrete DOM (fixed banner, scroll
container with an overlapping sibling, no prior `!important` priorities):
the round trip is bit-identical there. -/
theorem c6_suppress_restore_amended_witness :
    (c6Dom.map Elem.eid).Nodup ∧
    (∀ e ∈ c6Dom, e.visPriority = emptyStr) ∧
    restoreHiddenElements (hideOverlayElements c6Dom (some 3) 1).1
      (hideOverlayElements c6Dom (some 3) 1).2 = c6Dom :=
  ⟨by decide, by decide,
    (c6_suppress_restore_amended c6Dom (some 3) 1 (by decide)).2.2 (by decide)⟩

theorem findLoop_eq_selectGo :
    ∀ (fuel : ℕ) (queue : List Node) (best : Option Node) (maxArea : ℚ),
      findLoop fuel queue best maxArea =
        selectGo (orderLoop fuel queue) best maxArea := by
  intro fuel
  induction fuel with
  | zero => intro queue best m; cases queue <;> rfl
  | succ fuel ih =>
    intro queue best m
    cases queue with
    | nil => rfl
    | cons el rest =>
      unfold findLoop orderLoop
      split
      · exact ih rest best m
      · split
        · exact ih rest best m
        · show _ = if (qualifiesNode el && decide (m < nodeArea el)) = true
            then selectGo (orderLoop fuel (enqueueChildren rest el)) (some el)
              (nodeArea el)
            else selectGo (orderLoop fuel (enqueueChildren rest el)) best m
          split
          · exact ih (enqueueChildren rest el) (some el) (nodeArea el)
          · exact ih (enqueueChildren rest el) best m

theorem selectGo_eq_amendFold :
    ∀ l : List Node,
      selectGo l none 0 =
        (l.filter qualifiesNode).foldl
          (fun b el =>
            match b with
            | none => if decide (0 < nodeArea el) then some el else none
            | some b0 =>
              if decide (nodeArea b0 < nodeArea el) then some el else some b0)
          none ∧
      ∀ b0 : Node,
        selectGo l (some b0) (nodeArea b0) =
          (l.filter qualifiesNode).foldl
            (fun b el =>
              match b with
              | none => if decide (0 < nodeArea el) then some el else none
              | some b0 =>
                if decide (nodeArea b0 < nodeArea el) then some el else some b0)
            (some b0) := by
  intro l
  induction l with
  | nil => exact ⟨rfl, fun _ => rfl⟩
  | cons el rest ih =>
    cases hq : qualifiesNode el with
    | false =>
      have hfilter : (el :: rest).filter qualifiesNode =
          rest.filter qualifiesNode := by
        simp [List.filter_cons, hq]
      constructor
      · rw [hfilter]
        show (if (qualifiesNode el && decide ((0 : ℚ) < nodeArea el)) = true
            then selectGo rest (some el) (nodeArea el)
            else selectGo rest none 0) = _
        rw [hq]
        simp only [Bool.false_and, Bool.false_eq_true, if_false]
        exact ih.1
      · intro b0
        rw [hfilter]
        show (if (qualifiesNode el && decide (nodeArea b0 < nodeArea el)) = true
            then selectGo rest (some el) (nodeArea el)
            else selectGo rest (some b0) (nodeArea b0)) = _
        rw [hq]
        simp only [Bool.false_and, Bool.false_eq_true, if_false]
        exact ih.2 b0
    | true =>
      have hfilter : (el :: rest).filter qualifiesNode =
          el :: rest.filter qualifiesNode := by
        simp [List.filter_cons, hq]
      constructor
      · rw [hfilter, List.foldl_cons]
        show (if (qualifiesNode el && decide ((0 : ℚ) < nodeArea el)) = true
            then selectGo rest (some el) (nodeArea el)
            else selectGo rest none 0) = _
        rw [hq]
        simp only [Bool.true_and]
        cases hz : decide ((0 : ℚ) < nodeArea el) with
        | true =>
          simp only [if_pos rfl]
          exact ih.2 el
        | false =>
          simp only [Bool.false_eq_true, if_false]
          exact ih.1
      · intro b0
        rw [hfilter, List.foldl_cons]
        show (if (qualifiesNode el && decide (nodeArea b0 < nodeArea el)) = true
            then selectGo rest (some el) (nodeArea el)
            else selectGo rest (some b0) (nodeArea b0)) = _
        rw [hq]
        simp only [Bool.true_and]
        cases hz : decide (nodeArea b0 < nodeArea el) with
        | true =>
          simp only [if_pos rfl]
          exact ih.2 el
        | false =>
          simp only [Bool.false_eq_true, if_false]
          exact ih.2 b0

/-- Counterexample to claim C8: the claim's selection rule ("among
qualifying candidates, the one with the largest visible area is selected")
picks the zero-width qualifying container, but the source's `area > maxArea`
test starts from 0, so `findScrollContainer` selects nothing. -/
theorem c8_counterexample :
    findScrollContainer c8CexDoc = none ∧
    (claimFindScrollContainer c8CexDoc).isSome = true ∧
    findScrollContainer c8CexDoc ≠ claimFindScrollContainer c8CexDoc := by
  have hq : qualifiesNode c8CexNode = true := by
    unfold qualifiesNode c8CexNode
    simp only [Node.overflowY, Node.clientHeight, Node.scrollHeight,
      Bool.and_eq_true, Bool.or_eq_true, beq_iff_eq, decide_eq_true_eq]
    norm_num
  have harea : nodeArea c8CexNode = 0 := by
    unfold nodeArea c8CexNode
    simp only [Node.clientHeight, Node.clientWidth]
    norm_num
  have hcond : (qualifiesNode c8CexNode &&
      decide ((0 : ℚ) < nodeArea c8CexNode)) = false := by
    rw [harea]
    have hd : decide ((0 : ℚ) < 0) = false := decide_eq_false (lt_irrefl 0)
    rw [hd, Bool.and_false]
  have hdoc : isDocumentScrollable c8CexDoc = false := by decide
  have h1 : findScrollContainer c8CexDoc = none := by
    unfold findScrollContainer
    rw [if_neg (by rw [hdoc]; exact Bool.false_ne_true)]
    show findLoop 2000 [c8CexNode] none 0 = none
    rw [show (2000 : ℕ) = 1999 + 1 from rfl]
    unfold findLoop
    rw [if_neg (by decide), if_neg (by decide), if_neg (by
      rw [hcond]
      exact Bool.false_ne_true)]
    rfl
  have horder : orderLoop 2000 [c8CexNode] = [c8CexNode] := by
    rw [show (2000 : ℕ) = 1999 + 1 from rfl]
    unfold orderLoop
    rw [if_neg (by decide), if_neg (by decide)]
    rfl
  have h2 : claimFindScrollContainer c8CexDoc = some c8CexNode := by
    unfold claimFindScrollContainer
    rw [if_neg (by rw [hdoc]; exact Bool.false_ne_true)]
    show claimSelect (orderLoop 2000 [c8CexNode]) = some c8CexNode
    rw [horder]
    unfold claimSelect
    rw [List.filter_cons, if_pos hq]
    rfl
  refine ⟨h1, by rw [h2]; rfl, ?_⟩
  rw [h1, h2]
  intro hcontra
  exact Option.noConfusion hcontra

/-- Claim C8 as amended: the document-scrollable decision is exactly as
claimed; when the document scrolls no container is searched; otherwise the
selected container is the first qualifying candidate, in BFS traversal
order, whose visible area is strictly positive and maximal (ties keep the
first found) — a qualifying candidate with zero visible area is never
selected. -/
theorem c8_resolver_amended (d : DocModel) :
    (isDocumentScrollable d = true ↔
      (¬(d.rootOverflowY = visHiddenStr ∧ d.bodyOverflowY = visHiddenStr) ∧
        d.innerHeight + 50 < d.rootScrollHeight)) ∧
    (isDocumentScrollable d = true → findScrollContainer d = none) ∧
    (isDocumentScrollable d = false →
      findScrollContainer d = amendedSelect (orderLoop 2000 d.bodyChildren)) := by
  refine ⟨?_, ?_, ?_⟩
  · unfold isDocumentScrollable
    split
    · rename_i hcond
      simp only [Bool.and_eq_true, beq_iff_eq] at hcond
      simp [hcond]
    · rename_i hcond
      simp only [Bool.and_eq_true, beq_iff_eq, not_and] at hcond
      simp only [decide_eq_true_eq]
      constructor
      · intro h
        exact ⟨fun hab => hcond hab.1 hab.2, h⟩
      · intro h
        exact h.2
  · intro h
    unfold findScrollContainer
    rw [if_pos h]
  · intro h
    unfold findScrollContainer
    rw [if_neg (by rw [h]; exact Bool.false_ne_true)]
    rw [findLoop_eq_selectGo 2000 d.bodyChildren none 0]
    rw [(selectGo_eq_amendFold (orderLoop 2000 d.bodyChildren)).1]
    rfl

/-- Witness for the amended C8 at the concrete zero-width-container
document. -/
theorem c8_resolver_amended_witness :
    isDocumentScrollable c8CexDoc = false ∧
    findScrollContainer c8CexDoc =
      amendedSelect (orderLoop 2000 c8CexDoc.bodyChildren) :=
  ⟨rfl, (c8_resolver_amended c8CexDoc).2.2 rfl⟩
